import Mathlib

/-
Verification of the Heart-Mind hybrid recommendation engine
(src/backend/app/services/recommender.py and the /recommendations endpoint of
src/backend/app/main.py) against its natural-language specification.

The Python code is shallowly embedded:
* SQLAlchemy rows become Lean structures; the database session becomes an
  explicit `DB` value (lists of users, products and interactions in table order).
* Python dicts (including `defaultdict(float)` accumulators) become association
  lists in insertion order (`addScore`), with `getV` as dictionary lookup
  defaulting to 0.
* Python's stable `sorted(..., key=..., reverse=True)` and SQL `ORDER BY ... DESC`
  become `sortByKeyDesc`, a stable descending insertion sort.
* Python's slice `l[:n]` with an `int` argument becomes `pySlice` (negative
  arguments drop from the end), and SQLAlchemy/SQLite `.limit(n)` becomes
  `sqlLimit` (a negative SQLite LIMIT means "no limit").
* Machine floats become ℚ (stored weights, ratings) and ℝ (scores, which pass
  through `np.sqrt` in cosine similarity).
* `random.sample(pool, k)` becomes `sample`, parameterized by an explicit
  stream of random choices `r : List ℕ`; it picks `k` distinct positions
  without replacement, so its output is always a sub-collection of the pool.
* scikit-learn's TF-IDF vectorization plus dense cosine similarity (external
  library code, not part of this repository) is abstracted as a parameter
  `simf : ℕ → ℝ` giving the similarity of the idx-th catalog item to the
  user profile; theorems quantify over all such functions.
-/

namespace HeartMind

/-- Configuration from app/config.py that the recommender reads
(MIN_INTERACTIONS_FOR_COLLABORATIVE and SERENDIPITY_FACTOR; both can be
overridden by the environment, so theorems quantify over them). -/
structure Settings where
  minInteractionsForCollaborative : ℕ
  serendipityFactor : ℚ
deriving Repr

/-- Default values from config.py: threshold 3, serendipity factor 0.05. -/
def defaultSettings : Settings := ⟨3, 1/20⟩

/-- A row of the products table (fields the engine reads). -/
structure Product where
  id : ℕ
  name : String
  category : String
  tags : List String
  price : ℚ
  rating : ℚ
deriving DecidableEq, Repr

/-- A row of the interactions table (fields the engine reads). -/
structure Interaction where
  user_id : ℕ
  product_id : ℕ
  interaction_type : String
  weight : ℚ
deriving DecidableEq, Repr

/-- A database snapshot: user ids, products and interactions in table order. -/
structure DB where
  users : List ℕ
  products : List Product
  interactions : List Interaction
deriving DecidableEq, Repr

/-- A recommendation candidate dict `{'product_id': ..., 'score': ...}`.
The `source` tag of the Python dicts is presentational (never used by the
scoring logic) and is omitted. -/
structure Candidate where
  product_id : ℕ
  score : ℝ

/-- RecommenderEngine.interaction_weights, with `.get(type, 1.0)` default. -/
def interactionWeights (t : String) : ℚ :=
  if t = "view" then 1
  else if t = "cart" then 2
  else if t = "wishlist" then 3
  else if t = "purchase" then 5
  else if t = "rating" then 4
  else 1

/-- RecommenderEngine._get_user_interactions: all interactions of one user. -/
def getUserInteractions (db : DB) (user_id : ℕ) : List Interaction :=
  db.interactions.filter (fun i => i.user_id == user_id)

/-- Duplicate removal keeping the first occurrence, in insertion order:
the key order of a Python dict or insertion-ordered set. -/
def firstDedup (l : List ℕ) : List ℕ :=
  l.foldl (fun acc x => if x ∈ acc then acc else acc ++ [x]) []

/-- Keys of an association list (a Python dict's key view). -/
def keysOf {β : Type} (m : List (ℕ × β)) : List ℕ := m.map Prod.fst

/-- Dictionary lookup with default 0 (the `defaultdict(float)` read). -/
def getV {β : Type} [Zero β] (m : List (ℕ × β)) (k : ℕ) : β :=
  ((m.find? (fun p => p.1 == k)).map Prod.snd).getD 0

/-- The `defaultdict` accumulation `m[k] += v`: update the entry if the key
is present, else append it (Python dicts keep insertion order). -/
def addScore {β : Type} [Add β] (m : List (ℕ × β)) (k : ℕ) (v : β) : List (ℕ × β) :=
  if k ∈ keysOf m then m.map (fun p => if p.1 = k then (p.1, p.2 + v) else p)
  else m ++ [(k, v)]

/-- Python slice `l[:n]` for an arbitrary int `n`: nonnegative `n` takes a
prefix; negative `n` drops the last `|n|` elements. -/
def pySlice {α : Type} (n : ℤ) (l : List α) : List α :=
  if 0 ≤ n then l.take n.toNat else l.take (l.length - (-n).toNat)

/-- SQLAlchemy `.limit(n)` on the SQLite backend: a negative LIMIT means no
bound on the number of rows returned. -/
def sqlLimit {α : Type} (n : ℤ) (l : List α) : List α :=
  if n < 0 then l else l.take n.toNat

/-- Stable descending sort by a key, as produced both by Python's stable
`sorted(..., key=..., reverse=True)` and modeled for SQL `ORDER BY key DESC`. -/
def sortByKeyDesc {α β : Type} (key : α → β) [LinearOrder β] (l : List α) : List α :=
  @List.insertionSort α (fun a b => key b ≤ key a)
    (fun a b => inferInstanceAs (Decidable (key b ≤ key a))) l

/-- Model of `random.sample(l, k)` driven by an explicit stream `r` of random
choices: repeatedly pick a remaining element (by index `r.head % remaining`)
without replacement. -/
def sample {α : Type} : ℕ → List α → List ℕ → List α
  | 0, _, _ => []
  | _ + 1, [], _ => []
  | k + 1, a :: t, r =>
      let i := r.headD 0 % (a :: t).length
      (a :: t).getD i a :: sample k ((a :: t).eraseIdx i) r.tail

/- Container lemmas -/

theorem mem_foldl_dedup (l : List ℕ) (acc : List ℕ) (x : ℕ) :
    x ∈ l.foldl (fun acc x => if x ∈ acc then acc else acc ++ [x]) acc ↔
      x ∈ acc ∨ x ∈ l := by
  induction l generalizing acc with
  | nil => simp
  | cons a t ih =>
      simp only [List.foldl_cons, ih, List.mem_cons]
      by_cases h : a ∈ acc
      · simp only [if_pos h]
        constructor
        · rintro (hx | hx)
          · exact Or.inl hx
          · exact Or.inr (Or.inr hx)
        · rintro (hx | hx | hx)
          · exact Or.inl hx
          · exact Or.inl (hx ▸ h)
          · exact Or.inr hx
      · simp only [if_neg h, List.mem_append, List.mem_singleton]
        tauto

theorem mem_firstDedup (l : List ℕ) (x : ℕ) : x ∈ firstDedup l ↔ x ∈ l := by
  unfold firstDedup
  rw [mem_foldl_dedup]
  simp

theorem nodup_foldl_dedup (l : List ℕ) (acc : List ℕ) (hacc : acc.Nodup) :
    (l.foldl (fun acc x => if x ∈ acc then acc else acc ++ [x]) acc).Nodup := by
  induction l generalizing acc with
  | nil => simpa using hacc
  | cons a t ih =>
      simp only [List.foldl_cons]
      by_cases h : a ∈ acc
      · rw [if_pos h]; exact ih acc hacc
      · rw [if_neg h]
        refine ih _ ?_
        simpa [List.nodup_append] using ⟨hacc, h⟩

theorem nodup_firstDedup (l : List ℕ) : (firstDedup l).Nodup :=
  nodup_foldl_dedup l [] List.nodup_nil

theorem keysOf_addScore {β : Type} [Add β] (m : List (ℕ × β)) (k : ℕ) (v : β) :
    keysOf (addScore m k v) = if k ∈ keysOf m then keysOf m else keysOf m ++ [k] := by
  unfold addScore
  by_cases h : k ∈ keysOf m
  · rw [if_pos h, if_pos h]
    unfold keysOf
    rw [List.map_map]
    apply List.map_congr_left
    intro p _
    by_cases hp : p.1 = k <;> simp [hp]
  · rw [if_neg h, if_neg h]
    simp [keysOf]

theorem mem_keysOf_addScore {β : Type} [Add β] (m : List (ℕ × β)) (k j : ℕ) (v : β) :
    j ∈ keysOf (addScore m k v) ↔ j ∈ keysOf m ∨ j = k := by
  rw [keysOf_addScore]
  by_cases h : k ∈ keysOf m
  · rw [if_pos h]
    constructor
    · exact Or.inl
    · rintro (hj | rfl)
      · exact hj
      · exact h
  · rw [if_neg h]
    simp

theorem nodup_keysOf_addScore {β : Type} [Add β] (m : List (ℕ × β)) (k : ℕ) (v : β)
    (hm : (keysOf m).Nodup) : (keysOf (addScore m k v)).Nodup := by
  rw [keysOf_addScore]
  by_cases h : k ∈ keysOf m
  · rwa [if_pos h]
  · rw [if_neg h]
    simpa [List.nodup_append] using ⟨hm, h⟩

theorem getV_nil {β : Type} [Zero β] (j : ℕ) : getV ([] : List (ℕ × β)) j = 0 := rfl

theorem getV_cons {β : Type} [Zero β] (p : ℕ × β) (m : List (ℕ × β)) (j : ℕ) :
    getV (p :: m) j = if p.1 = j then p.2 else getV m j := by
  by_cases h : p.1 = j
  · simp [getV, List.find?_cons_of_pos, h]
  · simp only [if_neg h]
    have : ¬((p.1 == j) = true) := by simpa using h
    simp [getV, List.find?_cons_of_neg, this]

theorem getV_append {β : Type} [Zero β] (m1 m2 : List (ℕ × β)) (j : ℕ) :
    getV (m1 ++ m2) j = if j ∈ keysOf m1 then getV m1 j else getV m2 j := by
  induction m1 with
  | nil => simp [keysOf, getV_nil]
  | cons p t ih =>
      by_cases h : p.1 = j
      · simp [getV_cons, h, keysOf]
      · have hk : (j ∈ keysOf (p :: t)) ↔ j ∈ keysOf t := by
          simp only [keysOf, List.map_cons, List.mem_cons]
          constructor
          · rintro (rfl | hj)
            · exact absurd rfl h
            · exact hj
          · exact Or.inr
        rw [List.cons_append, getV_cons, if_neg h, getV_cons, if_neg h, ih]
        by_cases hj : j ∈ keysOf t
        · rw [if_pos hj, if_pos (hk.mpr hj)]
        · rw [if_neg hj, if_neg (fun hc => hj (hk.mp hc))]

theorem getV_eq_zero_of_not_mem {β : Type} [Zero β] (m : List (ℕ × β)) (j : ℕ)
    (h : j ∉ keysOf m) : getV m j = 0 := by
  induction m with
  | nil => rfl
  | cons p t ih =>
      have hp : ¬(p.1 = j) := fun hc => h (by simp [keysOf, hc])
      rw [getV_cons, if_neg hp]
      refine ih (fun hc => h ?_)
      simp only [keysOf, List.map_cons, List.mem_cons]
      exact Or.inr hc

theorem getV_mapUpd {β : Type} [AddZeroClass β] (m : List (ℕ × β)) (k j : ℕ) (v : β) :
    getV (m.map (fun p => if p.1 = k then (p.1, p.2 + v) else p)) j =
      if j = k ∧ j ∈ keysOf m then getV m j + v else getV m j := by
  induction m with
  | nil => simp [keysOf, getV_nil]
  | cons p t ih =>
      have hfst : ((if p.1 = k then (p.1, p.2 + v) else p) : ℕ × β).1 = p.1 := by
        by_cases hpk : p.1 = k <;> simp [hpk]
      by_cases hpj : p.1 = j
      · by_cases hpk : p.1 = k
        · have hjk : j = k := hpj ▸ hpk
          have hmem : j ∈ keysOf (p :: t) := by simp [keysOf, hpj]
          simp only [List.map_cons, if_pos hpk, getV_cons, if_pos hpj,
            if_pos (And.intro hjk hmem)]
        · have hjk : ¬(j = k) := fun hc => hpk (hpj ▸ hc)
          simp only [List.map_cons, if_neg hpk, getV_cons, if_pos hpj]
          rw [if_neg (fun hc => hjk hc.1)]
      · have hmem : j ∈ keysOf (p :: t) ↔ j ∈ keysOf t := by
          simp only [keysOf, List.map_cons, List.mem_cons]
          constructor
          · rintro (rfl | hj)
            · exact absurd rfl hpj
            · exact hj
          · exact Or.inr
        simp only [List.map_cons, getV_cons, hfst, if_neg hpj, ih]
        by_cases hcond : j = k ∧ j ∈ keysOf t
        · rw [if_pos hcond, if_pos (And.intro hcond.1 (hmem.mpr hcond.2))]
        · rw [if_neg hcond, if_neg (fun hc : j = k ∧ j ∈ keysOf (p :: t) =>
            hcond (And.intro hc.1 (hmem.mp hc.2)))]

theorem getV_addScore_self {β : Type} [AddZeroClass β] (m : List (ℕ × β)) (k : ℕ) (v : β) :
    getV (addScore m k v) k = getV m k + v := by
  unfold addScore
  by_cases h : k ∈ keysOf m
  · rw [if_pos h, getV_mapUpd, if_pos (And.intro rfl h)]
  · rw [if_neg h]
    rw [getV_append, if_neg h, getV_eq_zero_of_not_mem m k h, getV_cons]
    simp

theorem getV_addScore_ne {β : Type} [AddZeroClass β] (m : List (ℕ × β)) (k j : ℕ) (v : β)
    (hjk : j ≠ k) : getV (addScore m k v) j = getV m j := by
  unfold addScore
  by_cases h : k ∈ keysOf m
  · rw [if_pos h, getV_mapUpd, if_neg (fun hc : j = k ∧ j ∈ keysOf m => hjk hc.1)]
  · rw [if_neg h]
    rw [getV_append, getV_cons, if_neg (fun hc : (k : ℕ) = j => hjk hc.symm)]
    by_cases hj : j ∈ keysOf m
    · rw [if_pos hj]
    · rw [if_neg hj, getV_eq_zero_of_not_mem m j hj, getV_nil]

theorem sortByKeyDesc_sorted {α β : Type} (key : α → β) [LinearOrder β] (l : List α) :
    List.Sorted (fun a b => key b ≤ key a) (sortByKeyDesc key l) :=
  @List.sorted_insertionSort α (fun a b => key b ≤ key a)
    (fun a b => inferInstanceAs (Decidable (key b ≤ key a)))
    ⟨fun a b => le_total (key b) (key a)⟩
    ⟨fun _ _ _ h1 h2 => le_trans h2 h1⟩ l

theorem sortByKeyDesc_perm {α β : Type} (key : α → β) [LinearOrder β] (l : List α) :
    (sortByKeyDesc key l).Perm l :=
  @List.perm_insertionSort α (fun a b => key b ≤ key a)
    (fun a b => inferInstanceAs (Decidable (key b ≤ key a))) l

theorem mem_sortByKeyDesc {α β : Type} (key : α → β) [LinearOrder β] (l : List α) (x : α) :
    x ∈ sortByKeyDesc key l ↔ x ∈ l :=
  (sortByKeyDesc_perm key l).mem_iff

theorem getD_mem_of_mem {α : Type} (l : List α) (i : ℕ) (d : α) (hd : d ∈ l) :
    l.getD i d ∈ l := by
  rw [List.getD_eq_getElem?_getD]
  cases h : l[i]? with
  | none => simpa using hd
  | some x =>
      simp only [Option.getD_some]
      exact List.getElem?_mem h

theorem sample_subset {α : Type} :
    ∀ (k : ℕ) (l : List α) (r : List ℕ) (x : α), x ∈ sample k l r → x ∈ l := by
  intro k
  induction k with
  | zero => intro l r x hx; simp [sample] at hx
  | succ k ih =>
      intro l r x hx
      match l with
      | [] => simp [sample] at hx
      | a :: t =>
          simp only [sample, List.mem_cons] at hx
          rcases hx with hx | hx
          · rw [hx]
            exact getD_mem_of_mem (a :: t) _ a (List.mem_cons_self a t)
          · exact ((a :: t).eraseIdx_sublist _).mem (ih _ _ _ hx)

theorem pySlice_sublist {α : Type} (n : ℤ) (l : List α) : (pySlice n l).Sublist l := by
  unfold pySlice
  by_cases h : 0 ≤ n
  · rw [if_pos h]; exact List.take_sublist _ l
  · rw [if_neg h]; exact List.take_sublist _ l

theorem sqlLimit_sublist {α : Type} (n : ℤ) (l : List α) : (sqlLimit n l).Sublist l := by
  unfold sqlLimit
  by_cases h : n < 0
  · rw [if_pos h]
  · rw [if_neg h]; exact List.take_sublist _ l

theorem pySlice_length_le {α : Type} (n : ℤ) (l : List α) (h : 0 ≤ n) :
    ((pySlice n l).length : ℤ) ≤ n := by
  unfold pySlice
  rw [if_pos h]
  calc ((l.take n.toNat).length : ℤ) ≤ (n.toNat : ℤ) := by
        exact_mod_cast List.length_take_le n.toNat l
    _ = n := Int.toNat_of_nonneg h

/- Cosine similarity over sparse weighted vectors (dicts product id → weight). -/

/-- A sparse weighted vector: a Python dict from product id to float weight,
in insertion order. Well-formedness (dict-ness) is the `Nodup` of its keys. -/
abbrev Vec := List (ℕ × ℚ)

/-- The set `set(vec1.keys()) & set(vec2.keys())` of shared keys, as a
duplicate-free list. -/
def commonKeys (vec1 vec2 : Vec) : List ℕ :=
  firstDedup ((keysOf vec1).filter (fun k => k ∈ keysOf vec2))

/-- The numerator `sum(vec1[k] * vec2[k] for k in common_keys)`. -/
def dotCommon (vec1 vec2 : Vec) : ℚ :=
  ((commonKeys vec1 vec2).map (fun k => getV vec1 k * getV vec2 k)).sum

/-- The squared magnitude `sum(v**2 for v in vec.values())` of a vector,
summed over its stored entries (a dict stores one value per key). -/
def magSq (vec : Vec) : ℚ := (vec.map (fun p => p.2 ^ 2)).sum

section
open Classical

/-- RecommenderEngine._cosine_similarity: dot product restricted to the
shared keys, magnitudes `np.sqrt` over each full vector, 0 when there are no
shared keys or either magnitude is 0. -/
noncomputable def cosineSimilarity (vec1 vec2 : Vec) : ℝ :=
  if commonKeys vec1 vec2 = [] then 0
  else if Real.sqrt (magSq vec1 : ℚ) = 0 ∨ Real.sqrt (magSq vec2 : ℚ) = 0 then 0
  else (dotCommon vec1 vec2 : ℚ) / (Real.sqrt (magSq vec1 : ℚ) * Real.sqrt (magSq vec2 : ℚ))

/-- Modelled from the spec (section 4.2), for the refinement claim C2: shared
keys as the intersection of the two key sets; dot over the shared keys;
magnitudes over each vector's full key set; 0 on empty intersection or zero
magnitude. -/
noncomputable def specCosineSimilarity (vecA vecB : Vec) : ℝ :=
  let shared : Finset ℕ := (keysOf vecA).toFinset ∩ (keysOf vecB).toFinset
  let magA : ℝ := Real.sqrt ((∑ k in (keysOf vecA).toFinset, (getV vecA k) ^ 2 : ℚ) : ℝ)
  let magB : ℝ := Real.sqrt ((∑ k in (keysOf vecB).toFinset, (getV vecB k) ^ 2 : ℚ) : ℝ)
  if shared = ∅ then 0
  else if magA = 0 ∨ magB = 0 then 0
  else ((∑ k in shared, getV vecA k * getV vecB k : ℚ) : ℝ) / (magA * magB)

end

/- The recommendation engine (RecommenderEngine methods). -/

/-- RecommenderEngine._build_user_item_matrix, key view: the users present in
the matrix, in first-interaction order (Python dict key order). -/
def usersOf (db : DB) : List ℕ := firstDedup (db.interactions.map (·.user_id))

/-- RecommenderEngine._build_user_item_matrix, one row: the sparse vector of a
user, accumulating `interaction_weights.get(type, 1.0)` per product over that
user's interactions in table order. -/
def matrixRow (db : DB) (user_id : ℕ) : Vec :=
  (getUserInteractions db user_id).foldl
    (fun acc i => addScore acc i.product_id (interactionWeights i.interaction_type)) []

/-- The ids `[i.product_id for i in interactions]` of the products the user
has interacted with (`interacted_product_ids` / `user_product_ids`). -/
def userProductIds (db : DB) (user_id : ℕ) : List ℕ :=
  (getUserInteractions db user_id).map (·.product_id)

/-- The `sim > 0` neighbor candidates `similarities` of
_collaborative_filtering: every other matrix user paired with its cosine
similarity to the target user, keeping positive similarities only. -/
noncomputable def similarUsers (db : DB) (user_id : ℕ) : List (ℕ × ℝ) :=
  ((usersOf db).filter (fun o => o ≠ user_id)).filterMap (fun o =>
    if 0 < cosineSimilarity (matrixRow db user_id) (matrixRow db o)
    then some (o, cosineSimilarity (matrixRow db user_id) (matrixRow db o)) else none)

/-- RecommenderEngine._collaborative_filtering: score unseen items by weighted
votes of the top-10 positively-similar users. -/
noncomputable def collaborativeFiltering (db : DB) (user_id : ℕ) : List Candidate :=
  if user_id ∉ usersOf db then []
  else
    (((sortByKeyDesc Prod.snd (similarUsers db user_id)).take 10).foldl
      (fun acc os =>
        (matrixRow db os.1).foldl (fun acc2 pw =>
          if pw.1 ∈ keysOf (matrixRow db user_id) then acc2
          else addScore acc2 pw.1 ((pw.2 : ℝ) * os.2)) acc) []).map
      (fun p => ⟨p.1, p.2⟩)

/-- The products the user has interacted with that resolve in the catalog
(`interacted_products` in _content_based_filtering). -/
def interactedProducts (db : DB) (user_id : ℕ) : List Product :=
  db.products.filter (fun p => p.id ∈ userProductIds db user_id)

/-- The keys `list(product_profiles.keys())` of the product-profile dict:
catalog product ids with duplicates dropped, in insertion order. -/
def catalogIds (db : DB) : List ℕ := firstDedup (db.products.map (·.id))

/-- RecommenderEngine._content_based_filtering. The TF-IDF vectorization and
dense cosine similarity against the user profile are computed by scikit-learn
(external library code); they are abstracted as the parameter `simf`, mapping
the index of a catalog item (in the order of the product-profile dict) to its
similarity. The engine's own logic — the empty-history early return and the
emission filter (unseen item, positive similarity) — is embedded faithfully. -/
noncomputable def contentBasedFiltering (simf : ℕ → ℝ) (db : DB) (user_id : ℕ) :
    List Candidate :=
  if interactedProducts db user_id = [] then []
  else
    (List.range (catalogIds db).length).filterMap (fun idx =>
      if (catalogIds db).getD idx 0 ∉ userProductIds db user_id ∧ 0 < simf idx
      then some ⟨(catalogIds db).getD idx 0, simf idx⟩ else none)

/-- The grouped cold-start query: one row per product id with its catalog-wide
interaction count and average stored weight, ordered by count descending,
SQL LIMIT n*2. -/
def coldStartGroups (db : DB) (n : ℤ) : List (ℕ × ℕ × ℚ) :=
  let pids := firstDedup (db.interactions.map (·.product_id))
  let groups := pids.map (fun pid =>
    let is := db.interactions.filter (fun i => i.product_id == pid)
    (pid, is.length, ((is.map (·.weight)).sum) / (is.length : ℚ)))
  sqlLimit (n * 2) (sortByKeyDesc (fun g => g.2.1) groups)

/-- The dict `{p.id: p for p in products}` lookup: the last product row with a
given id wins, absent ids give none. -/
def productMapGet (db : DB) (pid : ℕ) : Option Product :=
  db.products.foldl (fun acc p => if p.id = pid then some p else acc) none

/-- RecommenderEngine._enrich_recommendations: keep candidates whose product id
resolves in the catalog (the attached `product` detail dict is presentational
and is not modeled; the kept candidate's id and score are unchanged). -/
def enrichRecommendations (db : DB) (recommendations : List Candidate) : List Candidate :=
  recommendations.filter (fun rec => (productMapGet db rec.product_id).isSome)

/-- RecommenderEngine._cold_start_recommendations: popularity-scored
candidates, score = interaction count x average weight, then `[:n]` and
enrichment. The user_id parameter is accepted and unused, as in the source. -/
def coldStartRecommendations (db : DB) (user_id : ℕ) (n : ℤ) : List Candidate :=
  let recommendations : List Candidate :=
    (coldStartGroups db n).map (fun g => ⟨g.1, ((g.2.1 : ℚ) * g.2.2 : ℚ)⟩)
  enrichRecommendations db (pySlice n recommendations)

/-- RecommenderEngine._merge_recommendations: blend scores by item id,
60% collaborative + 40% content, accumulated in a defaultdict. -/
noncomputable def mergeRecommendations (collab content : List Candidate) : List Candidate :=
  let m1 := collab.foldl (fun acc rec => addScore acc rec.product_id (rec.score * 0.6)) []
  let m2 := content.foldl (fun acc rec => addScore acc rec.product_id (rec.score * 0.4)) m1
  m2.map (fun p => ⟨p.1, p.2⟩)

/-- The set of categories of the user's interacted products
(`user_categories` in _add_serendipity); only membership is ever queried. -/
def userCategories (db : DB) (user_id : ℕ) : List String :=
  (db.products.filter (fun p => p.id ∈ userProductIds db user_id)).map (·.category)

/-- The serendipity count `max(1, int(len(recommendations) * SERENDIPITY_FACTOR))`. -/
def serendipityCount (s : Settings) (recommendations : List Candidate) : ℕ :=
  max 1 (⌊(recommendations.length : ℚ) * s.serendipityFactor⌋.toNat)

/-- The `different_products` query of _add_serendipity: catalog products
outside the user's categories, not already recommended or in the user's
history, rating at least 4.0, LIMIT n_serendipity * 3. -/
def serendipityPool (s : Settings) (db : DB) (user_id : ℕ)
    (recommendations : List Candidate) : List Product :=
  (db.products.filter (fun p =>
    p.category ∉ userCategories db user_id ∧
    p.id ∉ recommendations.map (·.product_id) ++ userProductIds db user_id ∧
    (4 : ℚ) ≤ p.rating)).take (serendipityCount s recommendations * 3)

/-- RecommenderEngine._add_serendipity: append up to n_serendipity randomly
sampled pool products as fixed-score-0.5 candidates; unchanged on empty pool. -/
def addSerendipity (s : Settings) (db : DB) (user_id : ℕ)
    (recommendations : List Candidate) (r : List ℕ) : List Candidate :=
  if serendipityPool s db user_id recommendations = [] then recommendations
  else
    recommendations ++
      (sample
        (min (serendipityCount s recommendations)
          (serendipityPool s db user_id recommendations).length)
        (serendipityPool s db user_id recommendations) r).map
        (fun p => ⟨p.id, 0.5⟩)

/-- The pipeline stages of section 4.9, for the orchestration claims. -/
inductive Stage
  | coldStart
  | collaborative
  | content
  | merge
  | serendipity
deriving DecidableEq, Repr

/-- The warm-start candidate set right after the optional serendipity stage:
the merged collaborative + content candidates, with serendipity appended when
enabled. -/
noncomputable def warmCandidates (s : Settings) (simf : ℕ → ℝ) (db : DB)
    (user_id : ℕ) (include_serendipity : Bool) (r : List ℕ) : List Candidate :=
  if include_serendipity then
    addSerendipity s db user_id
      (mergeRecommendations (collaborativeFiltering db user_id)
        (contentBasedFiltering simf db user_id)) r
  else
    mergeRecommendations (collaborativeFiltering db user_id)
      (contentBasedFiltering simf db user_id)

/-- RecommenderEngine.get_recommendations, instrumented with the list of
scoring stages the call runs (second component): cold start below the
interaction threshold; otherwise collaborative + content + merge, optional
serendipity, stable sort by score descending, `[:n]`, enrichment. -/
noncomputable def getRecommendationsT (s : Settings) (simf : ℕ → ℝ) (db : DB)
    (user_id : ℕ) (n : ℤ) (include_serendipity : Bool) (r : List ℕ) :
    List Candidate × List Stage :=
  if (getUserInteractions db user_id).length < s.minInteractionsForCollaborative then
    (coldStartRecommendations db user_id n, [Stage.coldStart])
  else
    (enrichRecommendations db (pySlice n (sortByKeyDesc Candidate.score
        (warmCandidates s simf db user_id include_serendipity r))),
      [Stage.collaborative, Stage.content, Stage.merge] ++
        (if include_serendipity then [Stage.serendipity] else []))

/-- RecommenderEngine.get_recommendations, result only. -/
noncomputable def getRecommendations (s : Settings) (simf : ℕ → ℝ) (db : DB)
    (user_id : ℕ) (n : ℤ) (include_serendipity : Bool) (r : List ℕ) : List Candidate :=
  (getRecommendationsT s simf db user_id n include_serendipity r).1

/-- The GET /recommendations/{user_id} endpoint of main.py, instrumented with
the engine stages it runs: the only boundary validation is user existence
(404); otherwise the engine is called with the given n (and serendipity on, as
the endpoint does not pass include_serendipity). An empty engine result is
still a 200 response carrying an empty list. -/
noncomputable def recommendationsEndpointT (s : Settings) (simf : ℕ → ℝ) (db : DB)
    (user_id : ℕ) (n : ℤ) (r : List ℕ) : Except ℕ (List Candidate) × List Stage :=
  if user_id ∈ db.users then
    let res := getRecommendationsT s simf db user_id n true r
    (Except.ok res.1, res.2)
  else (Except.error 404, [])

/- Lemmas about commonKeys, magSq and dotCommon. -/

theorem foldl_dedup_append (l : List ℕ) :
    ∀ acc : List ℕ, l.Nodup → (∀ x ∈ l, x ∉ acc) →
      l.foldl (fun acc x => if x ∈ acc then acc else acc ++ [x]) acc = acc ++ l := by
  induction l with
  | nil => intro acc _ _; simp
  | cons a t ih =>
      intro acc hnd hd
      obtain ⟨ha, ht⟩ : a ∉ t ∧ t.Nodup := by simpa using hnd
      rw [List.foldl_cons, if_neg (hd a (List.mem_cons_self a t))]
      rw [ih (acc ++ [a]) ht ?_]
      · simp
      · intro x hx hmem
        rcases List.mem_append.mp hmem with h | h
        · exact hd x (List.mem_cons_of_mem a hx) h
        · exact ha ((List.mem_singleton.mp h) ▸ hx)

theorem firstDedup_eq_of_nodup (l : List ℕ) (h : l.Nodup) : firstDedup l = l := by
  unfold firstDedup
  rw [foldl_dedup_append l [] h (fun x _ => List.not_mem_nil x)]
  simp

theorem commonKeys_toFinset (vec1 vec2 : Vec) :
    (commonKeys vec1 vec2).toFinset = (keysOf vec1).toFinset ∩ (keysOf vec2).toFinset := by
  ext k
  simp only [commonKeys, List.mem_toFinset, Finset.mem_inter, mem_firstDedup,
    List.mem_filter]
  constructor
  · rintro ⟨hk1, hk2⟩
    exact ⟨hk1, by simpa using hk2⟩
  · rintro ⟨hk1, hk2⟩
    exact ⟨hk1, by simpa using hk2⟩

theorem commonKeys_eq_nil_iff (vec1 vec2 : Vec) :
    commonKeys vec1 vec2 = [] ↔ (keysOf vec1).toFinset ∩ (keysOf vec2).toFinset = ∅ := by
  rw [← commonKeys_toFinset]
  exact (List.toFinset_eq_empty_iff _).symm

theorem sum_keys_sq (v : Vec) (h : (keysOf v).Nodup) :
    ((keysOf v).map (fun k => (getV v k) ^ 2)).sum = magSq v := by
  induction v with
  | nil => simp [keysOf, magSq]
  | cons p t ih =>
      obtain ⟨hp, ht⟩ : p.1 ∉ keysOf t ∧ (keysOf t).Nodup := by
        simpa [keysOf] using h
      have h1 : getV (p :: t) p.1 = p.2 := by rw [getV_cons, if_pos rfl]
      have h2 : (keysOf t).map (fun k => (getV (p :: t) k) ^ 2)
              = (keysOf t).map (fun k => (getV t k) ^ 2) := by
        apply List.map_congr_left
        intro k hk
        have hne : ¬(p.1 = k) := fun hc => hp (hc ▸ hk)
        rw [getV_cons, if_neg hne]
      show ((p.1 :: keysOf t).map (fun k => (getV (p :: t) k) ^ 2)).sum = magSq (p :: t)
      rw [List.map_cons, List.sum_cons, h1, h2, ih ht]
      simp [magSq]

theorem dotCommon_self (v : Vec) (h : (keysOf v).Nodup) : dotCommon v v = magSq v := by
  unfold dotCommon
  have hck : commonKeys v v = keysOf v := by
    unfold commonKeys
    rw [List.filter_eq_self.mpr (fun k hk => by simpa using hk)]
    exact firstDedup_eq_of_nodup _ h
  rw [hck]
  rw [show ((keysOf v).map (fun k => getV v k * getV v k))
        = ((keysOf v).map (fun k => (getV v k) ^ 2)) from
      List.map_congr_left (fun k _ => (sq (getV v k)).symm ▸ (pow_two (getV v k)).symm)]
  exact sum_keys_sq v h

theorem magSq_nonneg (v : Vec) : 0 ≤ magSq v := by
  apply List.sum_nonneg
  intro x hx
  obtain ⟨p, _, rfl⟩ := List.mem_map.mp hx
  exact sq_nonneg p.2

/-- Claim C2: for every pair of sparse weighted vectors (dicts, so with
duplicate-free key lists), the code's _cosine_similarity agrees with the
spec's asymmetric definition: 0 on no shared keys; otherwise dot over shared
keys divided by the product of full-vector magnitudes, 0 if either magnitude
is 0. -/
theorem c2_cosine_matches_spec (vec1 vec2 : Vec)
    (h1 : (keysOf vec1).Nodup) (h2 : (keysOf vec2).Nodup) :
    cosineSimilarity vec1 vec2 = specCosineSimilarity vec1 vec2 := by
  have hmag1 : (∑ k in (keysOf vec1).toFinset, (getV vec1 k) ^ 2 : ℚ) = magSq vec1 := by
    rw [List.sum_toFinset _ h1]
    exact sum_keys_sq vec1 h1
  have hmag2 : (∑ k in (keysOf vec2).toFinset, (getV vec2 k) ^ 2 : ℚ) = magSq vec2 := by
    rw [List.sum_toFinset _ h2]
    exact sum_keys_sq vec2 h2
  have hdot : (∑ k in (keysOf vec1).toFinset ∩ (keysOf vec2).toFinset,
      getV vec1 k * getV vec2 k : ℚ) = dotCommon vec1 vec2 := by
    have hnd : (commonKeys vec1 vec2).Nodup := nodup_firstDedup _
    rw [← commonKeys_toFinset, List.sum_toFinset _ hnd]
    rfl
  simp only [cosineSimilarity, specCosineSimilarity]
  rw [hmag1, hmag2, hdot]
  exact if_congr (commonKeys_eq_nil_iff vec1 vec2) rfl rfl

/-- Witness for C2 at concrete dict vectors. -/
theorem c2_cosine_matches_spec_witness :
    (keysOf [((1 : ℕ), (1 : ℚ))]).Nodup ∧
    (keysOf [((1 : ℕ), (2 : ℚ)), (2, 1)]).Nodup ∧
    cosineSimilarity [(1, 1)] [(1, 2), (2, 1)]
      = specCosineSimilarity [(1, 1)] [(1, 2), (2, 1)] :=
  ⟨by decide, by decide,
    c2_cosine_matches_spec [(1, 1)] [(1, 2), (2, 1)] (by decide) (by decide)⟩

/-- Counterexample to claim C8 as stated: the non-empty weighted vector
`{1: 0.0}` has self-similarity 0, not 1 (its magnitude is 0, so the
zero-magnitude guard fires). -/
theorem c8_self_similarity_counterexample :
    cosineSimilarity [((1 : ℕ), (0 : ℚ))] [(1, 0)] ≠ 1 := by
  have hck : commonKeys [((1 : ℕ), (0 : ℚ))] [(1, 0)] = [1] := by decide
  have hmag : magSq [((1 : ℕ), (0 : ℚ))] = 0 := by norm_num [magSq]
  rw [cosineSimilarity, hck, hmag]
  norm_num

/-- Claim C8, amended: for every non-empty weighted vector with nonzero
magnitude (equivalently, at least one nonzero weight), self-similarity is
exactly 1. -/
theorem c8_self_similarity_amended (v : Vec) (hnd : (keysOf v).Nodup)
    (hmag : magSq v ≠ 0) : cosineSimilarity v v = 1 := by
  have hvne : v ≠ [] := by
    rintro rfl
    exact hmag rfl
  have hck : commonKeys v v = keysOf v := by
    unfold commonKeys
    rw [List.filter_eq_self.mpr (fun k hk => by simpa using hk)]
    exact firstDedup_eq_of_nodup _ hnd
  have hckne : commonKeys v v ≠ [] := by
    rw [hck]
    cases v with
    | nil => exact absurd rfl hvne
    | cons p t => simp [keysOf]
  have hpos : (0 : ℚ) < magSq v := lt_of_le_of_ne (magSq_nonneg v) (Ne.symm hmag)
  have hposR : (0 : ℝ) < (magSq v : ℚ) := by exact_mod_cast hpos
  have hsqrt : Real.sqrt (magSq v : ℚ) ≠ 0 :=
    ne_of_gt (Real.sqrt_pos.mpr hposR)
  rw [cosineSimilarity, if_neg hckne, if_neg (by push_neg; exact ⟨hsqrt, hsqrt⟩),
    dotCommon_self v hnd, Real.mul_self_sqrt (le_of_lt hposR)]
  exact div_self (ne_of_gt hposR)

/-- Witness for C8 (amended) at the concrete vector `{1: 2.0}`. -/
theorem c8_self_similarity_witness :
    (keysOf [((1 : ℕ), (2 : ℚ))]).Nodup ∧ magSq [((1 : ℕ), (2 : ℚ))] ≠ 0 ∧
    cosineSimilarity [(1, 2)] [(1, 2)] = 1 :=
  ⟨by decide, by norm_num [magSq],
    c8_self_similarity_amended [(1, 2)] (by decide) (by norm_num [magSq])⟩

/- Cold-start popularity scoring (claims C1 and C6). -/

/-- The catalog-wide interaction count of one item
(`func.count(Interaction.id)` grouped by product). -/
def interCount (db : DB) (pid : ℕ) : ℕ :=
  (db.interactions.filter (fun i => i.product_id == pid)).length

/-- The mean stored interaction weight of one item
(`func.avg(Interaction.weight)` grouped by product). -/
def avgWeight (db : DB) (pid : ℕ) : ℚ :=
  ((db.interactions.filter (fun i => i.product_id == pid)).map (·.weight)).sum /
    (interCount db pid : ℚ)

theorem mem_coldStartGroups (db : DB) (n : ℤ) (g : ℕ × ℕ × ℚ)
    (hg : g ∈ coldStartGroups db n) :
    g.2.1 = interCount db g.1 ∧ g.2.2 = avgWeight db g.1 := by
  have hg2 : g ∈ sortByKeyDesc (fun g : ℕ × ℕ × ℚ => g.2.1)
      ((firstDedup (db.interactions.map (·.product_id))).map (fun pid =>
        (pid, (db.interactions.filter (fun i => i.product_id == pid)).length,
          (((db.interactions.filter (fun i => i.product_id == pid)).map (·.weight)).sum) /
            (((db.interactions.filter (fun i => i.product_id == pid)).length : ℚ))))) :=
    (sqlLimit_sublist _ _).mem hg
  have hg3 := (mem_sortByKeyDesc _ _ _).mp hg2
  obtain ⟨pid, _, rfl⟩ := List.mem_map.mp hg3
  exact ⟨rfl, rfl⟩

theorem coldStartGroups_pairwise (db : DB) (n : ℤ) :
    List.Pairwise (fun g1 g2 : ℕ × ℕ × ℚ => g2.2.1 ≤ g1.2.1) (coldStartGroups db n) :=
  List.Pairwise.sublist (sqlLimit_sublist _ _)
    (sortByKeyDesc_sorted (fun g : ℕ × ℕ × ℚ => g.2.1) _)

theorem mem_coldStartRecommendations (db : DB) (user_id : ℕ) (n : ℤ) (c : Candidate)
    (hc : c ∈ coldStartRecommendations db user_id n) :
    ∃ g ∈ coldStartGroups db n, c = ⟨g.1, ((g.2.1 : ℚ) * g.2.2 : ℚ)⟩ := by
  have hc2 : c ∈ pySlice n ((coldStartGroups db n).map
      (fun g => (⟨g.1, ((g.2.1 : ℚ) * g.2.2 : ℚ)⟩ : Candidate))) :=
    List.mem_of_mem_filter hc
  have hc3 := (pySlice_sublist n _).mem hc2
  obtain ⟨g, hg, rfl⟩ := List.mem_map.mp hc3
  exact ⟨g, hg, rfl⟩

theorem coldStart_pairwise_count (db : DB) (user_id : ℕ) (n : ℤ) :
    List.Pairwise (fun a b : Candidate =>
        interCount db b.product_id ≤ interCount db a.product_id)
      (coldStartRecommendations db user_id n) := by
  have h1 : List.Pairwise (fun g1 g2 : ℕ × ℕ × ℚ =>
      interCount db g2.1 ≤ interCount db g1.1) (coldStartGroups db n) := by
    refine List.Pairwise.imp_of_mem ?_ (coldStartGroups_pairwise db n)
    intro g1 g2 hg1 hg2 hr
    rw [← (mem_coldStartGroups db n g1 hg1).1, ← (mem_coldStartGroups db n g2 hg2).1]
    exact hr
  have h2 : List.Pairwise (fun a b : Candidate =>
      interCount db b.product_id ≤ interCount db a.product_id)
      ((coldStartGroups db n).map (fun g =>
        (⟨g.1, ((g.2.1 : ℚ) * g.2.2 : ℚ)⟩ : Candidate))) :=
    List.pairwise_map.mpr h1
  exact List.Pairwise.sublist (List.filter_sublist _)
    (List.Pairwise.sublist (pySlice_sublist n _) h2)

/-- Concrete database for the cold-start ordering counterexamples: product 1
has three view interactions (count 3, mean weight 1, score 3), product 2 has
two purchase interactions (count 2, mean weight 5, score 10); user 9 has no
interactions, so requests for user 9 take the cold-start path. -/
def dbPop : DB :=
  ⟨[9],
   [⟨1, "p1", "c", [], 1, 0⟩, ⟨2, "p2", "c", [], 1, 0⟩],
   [⟨2, 1, "view", 1⟩, ⟨3, 1, "view", 1⟩, ⟨4, 1, "view", 1⟩,
    ⟨2, 2, "purchase", 5⟩, ⟨3, 2, "purchase", 5⟩]⟩

theorem dbPop_cold_eval :
    coldStartRecommendations dbPop 9 10 = [⟨1, 3⟩, ⟨2, 10⟩] := by
  norm_num [coldStartRecommendations, coldStartGroups, firstDedup, sortByKeyDesc,
    enrichRecommendations, productMapGet, pySlice, sqlLimit, dbPop,
    List.take_of_length_le, List.filter_cons]

/-- Counterexample to claim C1 as stated: in dbPop the cold-start path returns
scores [3, 10] in that order — ordered by interaction count descending, not by
score descending. -/
theorem c1_cold_start_counterexample :
    ¬ List.Sorted (fun a b : Candidate => b.score ≤ a.score)
      (coldStartRecommendations dbPop 9 10) := by
  intro hsorted
  rw [dbPop_cold_eval] at hsorted
  have h10 : (10 : ℝ) ≤ 3 := by
    have := List.rel_of_sorted_cons hsorted ⟨2, 10⟩ (by simp)
    simpa using this
  norm_num at h10

/-- Claim C1, amended: the cold-start path assigns each returned item the
score (catalog-wide interaction count) x (mean stored interaction weight for
that item), and the returned list is ordered by interaction count descending —
which, as the counterexample shows, need not be score-descending order. -/
theorem c1_cold_start_amended (db : DB) (user_id : ℕ) (n : ℤ) :
    (∀ c ∈ coldStartRecommendations db user_id n,
        c.score = ((interCount db c.product_id : ℚ) * avgWeight db c.product_id : ℚ)) ∧
    List.Pairwise (fun a b : Candidate =>
        interCount db b.product_id ≤ interCount db a.product_id)
      (coldStartRecommendations db user_id n) := by
  constructor
  · intro c hc
    obtain ⟨g, hg, rfl⟩ := mem_coldStartRecommendations db user_id n c hc
    obtain ⟨hcnt, havg⟩ := mem_coldStartGroups db n g hg
    simp only [hcnt, havg]
  · exact coldStart_pairwise_count db user_id n

/-- Witness for C1 (amended) at the concrete database dbPop. -/
theorem c1_cold_start_amended_witness :
    (∀ c ∈ coldStartRecommendations dbPop 9 10,
        c.score = ((interCount dbPop c.product_id : ℚ) * avgWeight dbPop c.product_id : ℚ)) ∧
    List.Pairwise (fun a b : Candidate =>
        interCount dbPop b.product_id ≤ interCount dbPop a.product_id)
      (coldStartRecommendations dbPop 9 10) :=
  c1_cold_start_amended dbPop 9 10

/- Score merging (claim C3). -/

/-- The product ids of a candidate list. -/
def candidateIds (l : List Candidate) : List ℕ := l.map (·.product_id)

/-- The score a candidate list assigns to an item, 0 when absent
(first occurrence wins, matching dict semantics on duplicate-free lists). -/
def scoreOf (l : List Candidate) (k : ℕ) : ℝ :=
  ((l.find? (fun rec => rec.product_id == k)).map Candidate.score).getD 0

theorem scoreOf_nil (k : ℕ) : scoreOf [] k = 0 := rfl

theorem scoreOf_cons (c : Candidate) (l : List Candidate) (k : ℕ) :
    scoreOf (c :: l) k = if c.product_id = k then c.score else scoreOf l k := by
  by_cases h : c.product_id = k
  · simp [scoreOf, List.find?_cons_of_pos, h]
  · simp only [if_neg h]
    have : ¬((c.product_id == k) = true) := by simpa using h
    simp [scoreOf, List.find?_cons_of_neg, this]

theorem scoreOf_eq_zero_of_not_mem (l : List Candidate) (k : ℕ)
    (h : k ∉ candidateIds l) : scoreOf l k = 0 := by
  induction l with
  | nil => rfl
  | cons c t ih =>
      have hc : ¬(c.product_id = k) := fun hc => h (by simp [candidateIds, hc])
      rw [scoreOf_cons, if_neg hc]
      refine ih (fun hk => h ?_)
      simp only [candidateIds, List.map_cons, List.mem_cons]
      exact Or.inr hk

theorem getV_foldl_addScore (w : ℝ) :
    ∀ (l : List Candidate) (m : List (ℕ × ℝ)) (k : ℕ), (candidateIds l).Nodup →
      getV (l.foldl (fun acc rec => addScore acc rec.product_id (rec.score * w)) m) k
        = getV m k + (if k ∈ candidateIds l then scoreOf l k * w else 0) := by
  intro l
  induction l with
  | nil => intro m k _; simp [candidateIds]
  | cons c t ih =>
      intro m k hnd
      obtain ⟨hc, ht⟩ : c.product_id ∉ candidateIds t ∧ (candidateIds t).Nodup := by
        simpa [candidateIds] using hnd
      rw [List.foldl_cons, ih _ k ht]
      by_cases hk : k = c.product_id
      · subst hk
        rw [if_neg hc, getV_addScore_self, add_zero]
        have hmem : c.product_id ∈ candidateIds (c :: t) := by simp [candidateIds]
        rw [if_pos hmem, scoreOf_cons, if_pos rfl]
      · rw [getV_addScore_ne m c.product_id k _ hk]
        have hmem : k ∈ candidateIds (c :: t) ↔ k ∈ candidateIds t := by
          simp only [candidateIds, List.map_cons, List.mem_cons]
          constructor
          · rintro (h | h)
            · exact absurd h.symm (fun hc2 => hk hc2.symm)
            · exact h
          · exact Or.inr
        have hsc : scoreOf (c :: t) k = scoreOf t k := by
          rw [scoreOf_cons, if_neg (fun hc2 => hk hc2.symm)]
        by_cases hkt : k ∈ candidateIds t
        · rw [if_pos hkt, if_pos (hmem.mpr hkt), hsc]
        · rw [if_neg hkt, if_neg (fun hc2 => hkt (hmem.mp hc2))]

theorem mem_keys_foldl_addScore (w : ℝ) :
    ∀ (l : List Candidate) (m : List (ℕ × ℝ)) (j : ℕ),
      j ∈ keysOf (l.foldl (fun acc rec => addScore acc rec.product_id (rec.score * w)) m)
        ↔ j ∈ keysOf m ∨ j ∈ candidateIds l := by
  intro l
  induction l with
  | nil => intro m j; simp [candidateIds]
  | cons c t ih =>
      intro m j
      rw [List.foldl_cons, ih]
      rw [mem_keysOf_addScore]
      simp only [candidateIds, List.map_cons, List.mem_cons]
      tauto

theorem nodup_keys_foldl_addScore (w : ℝ) :
    ∀ (l : List Candidate) (m : List (ℕ × ℝ)), (keysOf m).Nodup →
      (keysOf (l.foldl (fun acc rec => addScore acc rec.product_id (rec.score * w)) m)).Nodup := by
  intro l
  induction l with
  | nil => intro m hm; exact hm
  | cons c t ih =>
      intro m hm
      rw [List.foldl_cons]
      exact ih _ (nodup_keysOf_addScore m _ _ hm)

theorem candidateIds_map_mk (m : List (ℕ × ℝ)) :
    candidateIds (m.map (fun p => (⟨p.1, p.2⟩ : Candidate))) = keysOf m := by
  simp [candidateIds, keysOf, List.map_map]

theorem scoreOf_map_mk (m : List (ℕ × ℝ)) (k : ℕ) :
    scoreOf (m.map (fun p => (⟨p.1, p.2⟩ : Candidate))) k = getV m k := by
  induction m with
  | nil => rfl
  | cons p t ih => rw [List.map_cons, scoreOf_cons, getV_cons, ih]

theorem mem_candidateIds_merge (collab content : List Candidate) (k : ℕ) :
    k ∈ candidateIds (mergeRecommendations collab content) ↔
      k ∈ candidateIds collab ∨ k ∈ candidateIds content := by
  unfold mergeRecommendations
  rw [candidateIds_map_mk, mem_keys_foldl_addScore, mem_keys_foldl_addScore]
  simp [keysOf]

/-- Claim C3: _merge_recommendations scores an item present in both candidate
lists as exactly 0.6 x collaborative score + 0.4 x content score, and an item
present in only one list as that list's score scaled by its weight (the
absent source contributing 0, since scoreOf of an absent id is 0). -/
theorem c3_merge_scores (collab content : List Candidate)
    (h1 : (candidateIds collab).Nodup) (h2 : (candidateIds content).Nodup) (k : ℕ)
    (hk : k ∈ candidateIds collab ∨ k ∈ candidateIds content) :
    k ∈ candidateIds (mergeRecommendations collab content) ∧
    scoreOf (mergeRecommendations collab content) k
      = scoreOf collab k * 0.6 + scoreOf content k * 0.4 := by
  refine ⟨(mem_candidateIds_merge collab content k).mpr hk, ?_⟩
  unfold mergeRecommendations
  rw [scoreOf_map_mk, getV_foldl_addScore _ content _ k h2,
    getV_foldl_addScore _ collab _ k h1]
  have hcollab : (if k ∈ candidateIds collab then scoreOf collab k * 0.6 else 0)
      = scoreOf collab k * 0.6 := by
    by_cases h : k ∈ candidateIds collab
    · rw [if_pos h]
    · rw [if_neg h, scoreOf_eq_zero_of_not_mem collab k h, zero_mul]
  have hcontent : (if k ∈ candidateIds content then scoreOf content k * 0.4 else 0)
      = scoreOf content k * 0.4 := by
    by_cases h : k ∈ candidateIds content
    · rw [if_pos h]
    · rw [if_neg h, scoreOf_eq_zero_of_not_mem content k h, zero_mul]
  rw [hcollab, hcontent, getV_nil, zero_add]

/-- Witness for C3 at concrete candidate lists: item 1 is in both lists,
item 2 only in the collaborative list. -/
theorem c3_merge_scores_witness :
    ((candidateIds [⟨1, (2 : ℝ)⟩, ⟨2, 1⟩]).Nodup ∧
      (candidateIds [(⟨1, (3 : ℝ)⟩ : Candidate)]).Nodup ∧
      (1 ∈ candidateIds [⟨1, (2 : ℝ)⟩, ⟨2, 1⟩] ∨
        1 ∈ candidateIds [(⟨1, (3 : ℝ)⟩ : Candidate)])) ∧
    (1 ∈ candidateIds (mergeRecommendations [⟨1, 2⟩, ⟨2, 1⟩] [⟨1, 3⟩]) ∧
      scoreOf (mergeRecommendations [⟨1, 2⟩, ⟨2, 1⟩] [⟨1, 3⟩]) 1
        = scoreOf [⟨1, (2 : ℝ)⟩, ⟨2, 1⟩] 1 * 0.6 + scoreOf [(⟨1, (3 : ℝ)⟩ : Candidate)] 1 * 0.4) :=
  ⟨⟨by decide, by decide, by decide⟩,
    c3_merge_scores [⟨1, 2⟩, ⟨2, 1⟩] [⟨1, 3⟩] (by decide) (by decide) 1 (by decide)⟩

/- Serendipity injection (claims C5 and C9) and no-data behavior (C9). -/

theorem mem_serendipityPool (s : Settings) (db : DB) (user_id : ℕ)
    (recs : List Candidate) (p : Product) (hp : p ∈ serendipityPool s db user_id recs) :
    p ∈ db.products ∧ p.category ∉ userCategories db user_id ∧
    p.id ∉ recs.map (·.product_id) ∧ p.id ∉ userProductIds db user_id ∧
    (4 : ℚ) ≤ p.rating := by
  unfold serendipityPool at hp
  have hp2 := List.mem_of_mem_take hp
  obtain ⟨hmem, hcond⟩ := List.mem_filter.mp hp2
  have hcond2 : p.category ∉ userCategories db user_id ∧
      p.id ∉ recs.map (·.product_id) ++ userProductIds db user_id ∧
      (4 : ℚ) ≤ p.rating := by simpa using hcond
  obtain ⟨h1, h2, h3⟩ := hcond2
  rw [List.mem_append] at h2
  push_neg at h2
  exact ⟨hmem, h1, h2.1, h2.2, h3⟩

theorem mem_addSerendipity (s : Settings) (db : DB) (user_id : ℕ)
    (recs : List Candidate) (r : List ℕ) (x : Candidate)
    (hx : x ∈ addSerendipity s db user_id recs r) :
    x ∈ recs ∨ ∃ p ∈ serendipityPool s db user_id recs, x = ⟨p.id, 0.5⟩ := by
  unfold addSerendipity at hx
  by_cases hpool : serendipityPool s db user_id recs = []
  · rw [if_pos hpool] at hx
    exact Or.inl hx
  · rw [if_neg hpool] at hx
    rcases List.mem_append.mp hx with hx | hx
    · exact Or.inl hx
    · obtain ⟨p, hp, rfl⟩ := List.mem_map.mp hx
      exact Or.inr ⟨p, sample_subset _ _ _ _ hp, rfl⟩

/-- Claim C5: every candidate appended by _add_serendipity refers to a catalog
product whose category the user has never interacted with, whose id is neither
among the already-recommended ids nor in the user's interaction history, and
whose rating is at least 4.0 (every output element is either an original
candidate or such an appended one). -/
theorem c5_serendipity_filters (s : Settings) (db : DB) (user_id : ℕ)
    (recs : List Candidate) (r : List ℕ) :
    ∀ x ∈ addSerendipity s db user_id recs r,
      x ∈ recs ∨ ∃ p ∈ db.products, x.product_id = p.id ∧
        p.category ∉ userCategories db user_id ∧ (4 : ℚ) ≤ p.rating ∧
        x.product_id ∉ recs.map (·.product_id) ∧
        x.product_id ∉ userProductIds db user_id := by
  intro x hx
  rcases mem_addSerendipity s db user_id recs r x hx with hx2 | ⟨p, hp, rfl⟩
  · exact Or.inl hx2
  · obtain ⟨hmem, hcat, hrec, hhist, hrat⟩ := mem_serendipityPool s db user_id recs p hp
    exact Or.inr ⟨p, hmem, rfl, hcat, hrat, hrec, hhist⟩

/-- Concrete database for the serendipity witness: a single high-rated product
in a category the user (id 7, no interactions) has never touched. -/
def dbSer : DB := ⟨[], [⟨1, "x", "CatX", [], 1, 4⟩], []⟩

theorem dbSer_eval :
    addSerendipity defaultSettings dbSer 7 [] [] = [⟨1, 0.5⟩] := by
  norm_num [addSerendipity, serendipityPool, serendipityCount, userCategories,
    userProductIds, getUserInteractions, sample, dbSer, defaultSettings]

/-- Witness for C5 at the concrete database dbSer: the single appended
candidate satisfies the claimed filters. -/
theorem c5_serendipity_filters_witness :
    ((⟨1, 0.5⟩ : Candidate) ∈ addSerendipity defaultSettings dbSer 7 [] []) ∧
    ((⟨1, 0.5⟩ : Candidate) ∈ ([] : List Candidate) ∨
      ∃ p ∈ dbSer.products, (⟨1, 0.5⟩ : Candidate).product_id = p.id ∧
        p.category ∉ userCategories dbSer 7 ∧ (4 : ℚ) ≤ p.rating ∧
        (⟨1, 0.5⟩ : Candidate).product_id ∉ ([] : List Candidate).map (·.product_id) ∧
        (⟨1, 0.5⟩ : Candidate).product_id ∉ userProductIds dbSer 7) :=
  have hmem : (⟨1, 0.5⟩ : Candidate) ∈ addSerendipity defaultSettings dbSer 7 [] [] := by
    rw [dbSer_eval]
    exact List.mem_singleton.mpr rfl
  ⟨hmem, c5_serendipity_filters defaultSettings dbSer 7 [] [] ⟨1, 0.5⟩ hmem⟩

/- No-data conditions (claim C9). -/

theorem collaborativeFiltering_absent (db : DB) (user_id : ℕ)
    (h : user_id ∉ usersOf db) : collaborativeFiltering db user_id = [] := by
  unfold collaborativeFiltering
  rw [if_pos h]

theorem collaborativeFiltering_no_neighbors (db : DB) (user_id : ℕ)
    (h : ∀ o ∈ usersOf db, o ≠ user_id →
      ¬(0 < cosineSimilarity (matrixRow db user_id) (matrixRow db o))) :
    collaborativeFiltering db user_id = [] := by
  unfold collaborativeFiltering
  by_cases hm : user_id ∉ usersOf db
  · rw [if_pos hm]
  · rw [if_neg hm]
    have hsims : similarUsers db user_id = [] := by
      unfold similarUsers
      refine List.filterMap_eq_nil_iff.mpr ?_
      intro o ho
      obtain ⟨ho1, ho2⟩ := List.mem_filter.mp ho
      rw [if_neg (h o ho1 (by simpa using ho2))]
    rw [hsims]
    rfl

theorem contentBasedFiltering_no_products (simf : ℕ → ℝ) (db : DB) (user_id : ℕ)
    (h : interactedProducts db user_id = []) :
    contentBasedFiltering simf db user_id = [] := by
  unfold contentBasedFiltering
  rw [if_pos h]

theorem addSerendipity_empty_pool (s : Settings) (db : DB) (user_id : ℕ)
    (recs : List Candidate) (r : List ℕ)
    (h : serendipityPool s db user_id recs = []) :
    addSerendipity s db user_id recs r = recs := by
  unfold addSerendipity
  rw [if_pos h]

/-- Claim C9: each no-data condition makes the affected stage return an empty
collection or add nothing (the embedded functions are total, so no error can
be raised): a target user absent from the user-item matrix, or zero
positive-similarity neighbors, gives an empty collaborative result; no
resolvable interacted product gives an empty content result; an empty
serendipity pool leaves the candidate list unchanged. -/
theorem c9_no_data_empty (s : Settings) (simf : ℕ → ℝ) (db : DB) (user_id : ℕ)
    (recs : List Candidate) (r : List ℕ) :
    (user_id ∉ usersOf db → collaborativeFiltering db user_id = []) ∧
    ((∀ o ∈ usersOf db, o ≠ user_id →
        ¬(0 < cosineSimilarity (matrixRow db user_id) (matrixRow db o))) →
      collaborativeFiltering db user_id = []) ∧
    (interactedProducts db user_id = [] → contentBasedFiltering simf db user_id = []) ∧
    (serendipityPool s db user_id recs = [] → addSerendipity s db user_id recs r = recs) :=
  ⟨collaborativeFiltering_absent db user_id,
   collaborativeFiltering_no_neighbors db user_id,
   contentBasedFiltering_no_products simf db user_id,
   addSerendipity_empty_pool s db user_id recs r⟩

/-- A completely empty database, for the C9 witness. -/
def dbEmpty : DB := ⟨[], [], []⟩

/-- Witness for C9 at the empty database (each no-data hypothesis holds
there, and each conclusion is delivered by the theorem). -/
theorem c9_no_data_empty_witness :
    collaborativeFiltering dbEmpty 5 = [] ∧ collaborativeFiltering dbEmpty 5 = [] ∧
    contentBasedFiltering (fun _ => (0 : ℝ)) dbEmpty 5 = [] ∧
    addSerendipity defaultSettings dbEmpty 5 [] [] = [] :=
  have husers : usersOf dbEmpty = [] := rfl
  ⟨(c9_no_data_empty defaultSettings (fun _ => (0 : ℝ)) dbEmpty 5 [] []).1
      (by rw [husers]; exact List.not_mem_nil 5),
   (c9_no_data_empty defaultSettings (fun _ => (0 : ℝ)) dbEmpty 5 [] []).2.1
      (by intro o ho; rw [husers] at ho; exact absurd ho (List.not_mem_nil o)),
   (c9_no_data_empty defaultSettings (fun _ => (0 : ℝ)) dbEmpty 5 [] []).2.2.1 rfl,
   (c9_no_data_empty defaultSettings (fun _ => (0 : ℝ)) dbEmpty 5 [] []).2.2.2
      (by simp [serendipityPool, dbEmpty])⟩

/- Orchestration (claims C4, C6, C7). -/

/-- Claim C4: a user whose interaction count is below the configured minimum
threshold takes only the cold-start path — the instrumented call returns the
cold-start result and its stage trace is exactly [coldStart], so the
collaborative, content, merge and serendipity stages are never invoked. -/
theorem c4_cold_path_only (s : Settings) (simf : ℕ → ℝ) (db : DB) (user_id : ℕ)
    (n : ℤ) (include_serendipity : Bool) (r : List ℕ)
    (h : (getUserInteractions db user_id).length < s.minInteractionsForCollaborative) :
    (getRecommendationsT s simf db user_id n include_serendipity r).1
        = coldStartRecommendations db user_id n ∧
    (getRecommendationsT s simf db user_id n include_serendipity r).2
        = [Stage.coldStart] := by
  unfold getRecommendationsT
  rw [if_pos h]
  exact ⟨rfl, rfl⟩

/-- Witness for C4: user 9 of dbPop has 0 < 3 interactions, and the call
reduces to the cold-start result with trace [coldStart]. -/
theorem c4_cold_path_only_witness :
    (getUserInteractions dbPop 9).length < defaultSettings.minInteractionsForCollaborative ∧
    (getRecommendationsT defaultSettings (fun _ => (0 : ℝ)) dbPop 9 10 true []).1
        = coldStartRecommendations dbPop 9 10 ∧
    (getRecommendationsT defaultSettings (fun _ => (0 : ℝ)) dbPop 9 10 true []).2
        = [Stage.coldStart] :=
  ⟨by decide,
   c4_cold_path_only defaultSettings (fun _ => (0 : ℝ)) dbPop 9 10 true [] (by decide)⟩

/-- A database containing only user 1 (no products, no interactions), for the
boundary claim C7. -/
def dbBoundary : DB := ⟨[1], [], []⟩

/-- Claim C7 fails on the code (code_bug): the /recommendations endpoint
performs no validation of n, so the request n = 0 for the existing user 1 is
not rejected — the scoring pipeline is entered (the cold-start stage runs) and
the endpoint answers 200 with an empty list. -/
theorem c7_boundary_accepts_nonpositive_n :
    recommendationsEndpointT defaultSettings (fun _ => (0 : ℝ)) dbBoundary 1 0 []
      = (Except.ok [], [Stage.coldStart]) := by
  norm_num [recommendationsEndpointT, getRecommendationsT, coldStartRecommendations,
    coldStartGroups, firstDedup, sortByKeyDesc, sqlLimit, pySlice,
    enrichRecommendations, getUserInteractions, dbBoundary, defaultSettings]

/-- Concrete database for the C6 counterexample: three products with
interaction counts 3, 2, 1 and scores 3, 10, 1 respectively, plus the
interaction-free user 9. -/
def dbPop3 : DB :=
  ⟨[9],
   [⟨1, "p1", "c", [], 1, 0⟩, ⟨2, "p2", "c", [], 1, 0⟩, ⟨3, "p3", "c", [], 1, 0⟩],
   [⟨2, 1, "view", 1⟩, ⟨3, 1, "view", 1⟩, ⟨4, 1, "view", 1⟩,
    ⟨2, 2, "purchase", 5⟩, ⟨3, 2, "purchase", 5⟩, ⟨2, 3, "view", 1⟩]⟩

theorem dbPop3_eval :
    getRecommendations defaultSettings (fun _ => (0 : ℝ)) dbPop3 9 (-1) true []
      = [⟨1, 3⟩, ⟨2, 10⟩] := by
  norm_num [getRecommendations, getRecommendationsT, coldStartRecommendations,
    coldStartGroups, firstDedup, sortByKeyDesc, enrichRecommendations,
    productMapGet, pySlice, sqlLimit, getUserInteractions, dbPop3, defaultSettings,
    List.take_of_length_le, List.filter_cons]

/-- Counterexample to claim C6 as stated: at n = -1 (an int the API accepts)
the call on dbPop3 returns 2 elements — more than n — and they are ordered
[score 3, score 10], not score-descending (the cold path orders by interaction
count). -/
theorem c6_counterexample :
    ¬(((getRecommendations defaultSettings (fun _ => (0 : ℝ)) dbPop3 9 (-1) true
          []).length : ℤ) ≤ -1) ∧
    ¬ List.Sorted (fun a b : Candidate => b.score ≤ a.score)
        (getRecommendations defaultSettings (fun _ => (0 : ℝ)) dbPop3 9 (-1) true []) := by
  rw [dbPop3_eval]
  constructor
  · norm_num
  · intro hsorted
    have h10 : (10 : ℝ) ≤ 3 := by
      have := List.rel_of_sorted_cons hsorted ⟨2, 10⟩ (by simp)
      simpa using this
    norm_num at h10

theorem length_enrich_pySlice (db : DB) (n : ℤ) (l : List Candidate) (h : 0 ≤ n) :
    ((enrichRecommendations db (pySlice n l)).length : ℤ) ≤ n := by
  refine le_trans ?_ (pySlice_length_le n l h)
  exact_mod_cast (List.filter_sublist _).length_le

/-- Claim C6, amended: for every requested count n that is at least 0, the
returned list has at most n elements; on the warm path it is ordered by score
descending (ties aside); on the cold-start path it is ordered by catalog
interaction count descending, which need not be score order. (For negative n,
as the counterexample shows, the Python slice and the unbounded negative SQL
LIMIT can return more than n elements and out of score order.) -/
theorem c6_amended (s : Settings) (simf : ℕ → ℝ) (db : DB) (user_id : ℕ)
    (n : ℤ) (include_serendipity : Bool) (r : List ℕ) (hn : 0 ≤ n) :
    (((getRecommendations s simf db user_id n include_serendipity r).length : ℤ) ≤ n) ∧
    ((getUserInteractions db user_id).length < s.minInteractionsForCollaborative →
      List.Pairwise (fun a b : Candidate =>
          interCount db b.product_id ≤ interCount db a.product_id)
        (getRecommendations s simf db user_id n include_serendipity r)) ∧
    (¬((getUserInteractions db user_id).length < s.minInteractionsForCollaborative) →
      List.Sorted (fun a b : Candidate => b.score ≤ a.score)
        (getRecommendations s simf db user_id n include_serendipity r)) := by
  unfold getRecommendations getRecommendationsT
  by_cases hcold : (getUserInteractions db user_id).length < s.minInteractionsForCollaborative
  · rw [if_pos hcold]
    refine ⟨?_, fun _ => ?_, fun hc => absurd hcold hc⟩
    · unfold coldStartRecommendations
      exact length_enrich_pySlice db n _ hn
    · exact coldStart_pairwise_count db user_id n
  · rw [if_neg hcold]
    refine ⟨length_enrich_pySlice db n _ hn, fun hc => absurd hc hcold, fun _ => ?_⟩
    exact List.Pairwise.sublist (List.filter_sublist _)
      (List.Pairwise.sublist (pySlice_sublist n _)
        (sortByKeyDesc_sorted Candidate.score _))

/-- Witness for C6 (amended) at dbPop with n = 10. -/
theorem c6_amended_witness :
    (((getRecommendations defaultSettings (fun _ => (0 : ℝ)) dbPop 9 10 true
        []).length : ℤ) ≤ 10) ∧
    ((getUserInteractions dbPop 9).length < defaultSettings.minInteractionsForCollaborative →
      List.Pairwise (fun a b : Candidate =>
          interCount dbPop b.product_id ≤ interCount dbPop a.product_id)
        (getRecommendations defaultSettings (fun _ => (0 : ℝ)) dbPop 9 10 true [])) ∧
    (¬((getUserInteractions dbPop 9).length <
        defaultSettings.minInteractionsForCollaborative) →
      List.Sorted (fun a b : Candidate => b.score ≤ a.score)
        (getRecommendations defaultSettings (fun _ => (0 : ℝ)) dbPop 9 10 true [])) :=
  c6_amended defaultSettings (fun _ => (0 : ℝ)) dbPop 9 10 true [] (by decide)

/- Warm-path exclusion of already-interacted items (claim C10). -/

theorem mem_keys_foldl_addScore_inter :
    ∀ (l : List Interaction) (m : List (ℕ × ℚ)) (j : ℕ),
      j ∈ keysOf (l.foldl
          (fun acc i => addScore acc i.product_id (interactionWeights i.interaction_type)) m)
        ↔ j ∈ keysOf m ∨ j ∈ l.map (·.product_id) := by
  intro l
  induction l with
  | nil => intro m j; simp
  | cons i t ih =>
      intro m j
      rw [List.foldl_cons, ih]
      rw [mem_keysOf_addScore]
      simp only [List.map_cons, List.mem_cons]
      tauto

theorem mem_keysOf_matrixRow (db : DB) (user_id : ℕ) (k : ℕ) :
    k ∈ keysOf (matrixRow db user_id) ↔ k ∈ userProductIds db user_id := by
  unfold matrixRow userProductIds
  rw [mem_keys_foldl_addScore_inter]
  simp [keysOf]

theorem keys_inner_vote_fold (tk : List ℕ) (w : ℝ) :
    ∀ (row : List (ℕ × ℚ)) (acc : List (ℕ × ℝ)) (j : ℕ),
      j ∈ keysOf (row.foldl (fun acc2 pw =>
          if pw.1 ∈ tk then acc2 else addScore acc2 pw.1 ((pw.2 : ℝ) * w)) acc) →
        j ∈ keysOf acc ∨ j ∉ tk := by
  intro row
  induction row with
  | nil => intro acc j hj; exact Or.inl hj
  | cons pw t ih =>
      intro acc j hj
      rw [List.foldl_cons] at hj
      rcases ih _ j hj with hj2 | hj2
      · by_cases hpw : pw.1 ∈ tk
        · rw [if_pos hpw] at hj2
          exact Or.inl hj2
        · rw [if_neg hpw] at hj2
          rcases (mem_keysOf_addScore _ _ _ _).mp hj2 with hj3 | rfl
          · exact Or.inl hj3
          · exact Or.inr hpw
      · exact Or.inr hj2

theorem keys_outer_vote_fold (db : DB) (tk : List ℕ) :
    ∀ (top : List (ℕ × ℝ)) (acc : List (ℕ × ℝ)) (j : ℕ),
      j ∈ keysOf (top.foldl (fun acc os =>
          (matrixRow db os.1).foldl (fun acc2 pw =>
            if pw.1 ∈ tk then acc2 else addScore acc2 pw.1 ((pw.2 : ℝ) * os.2)) acc) acc) →
        j ∈ keysOf acc ∨ j ∉ tk := by
  intro top
  induction top with
  | nil => intro acc j hj; exact Or.inl hj
  | cons os t ih =>
      intro acc j hj
      rw [List.foldl_cons] at hj
      rcases ih _ j hj with hj2 | hj2
      · exact keys_inner_vote_fold tk os.2 (matrixRow db os.1) acc j hj2
      · exact Or.inr hj2

theorem mem_collaborativeFiltering_not_seen (db : DB) (user_id : ℕ) (c : Candidate)
    (hc : c ∈ collaborativeFiltering db user_id) :
    c.product_id ∉ keysOf (matrixRow db user_id) := by
  unfold collaborativeFiltering at hc
  by_cases hm : user_id ∉ usersOf db
  · rw [if_pos hm] at hc
    exact absurd hc (List.not_mem_nil c)
  · rw [if_neg hm] at hc
    obtain ⟨p, hp, rfl⟩ := List.mem_map.mp hc
    have hkey : p.1 ∈ keysOf (((sortByKeyDesc Prod.snd (similarUsers db user_id)).take 10).foldl
        (fun acc os => (matrixRow db os.1).foldl (fun acc2 pw =>
          if pw.1 ∈ keysOf (matrixRow db user_id) then acc2
          else addScore acc2 pw.1 ((pw.2 : ℝ) * os.2)) acc) []) :=
      List.mem_map_of_mem Prod.fst hp
    rcases keys_outer_vote_fold db (keysOf (matrixRow db user_id)) _ [] p.1 hkey with h0 | h0
    · exact absurd h0 (List.not_mem_nil p.1)
    · exact h0

theorem mem_contentBasedFiltering_not_seen (simf : ℕ → ℝ) (db : DB) (user_id : ℕ)
    (c : Candidate) (hc : c ∈ contentBasedFiltering simf db user_id) :
    c.product_id ∉ userProductIds db user_id := by
  unfold contentBasedFiltering at hc
  by_cases hm : interactedProducts db user_id = []
  · rw [if_pos hm] at hc
    exact absurd hc (List.not_mem_nil c)
  · rw [if_neg hm] at hc
    obtain ⟨idx, _, heq⟩ := List.mem_filterMap.mp hc
    by_cases hguard : (catalogIds db).getD idx 0 ∉ userProductIds db user_id ∧ 0 < simf idx
    · rw [if_pos hguard] at heq
      cases heq
      exact hguard.1
    · rw [if_neg hguard] at heq
      simp at heq

theorem mem_merge_not_seen (simf : ℕ → ℝ) (db : DB) (user_id : ℕ) (x : Candidate)
    (hx : x ∈ mergeRecommendations (collaborativeFiltering db user_id)
      (contentBasedFiltering simf db user_id)) :
    x.product_id ∉ userProductIds db user_id := by
  have hid : x.product_id ∈ candidateIds (mergeRecommendations
      (collaborativeFiltering db user_id) (contentBasedFiltering simf db user_id)) :=
    List.mem_map_of_mem _ hx
  rcases (mem_candidateIds_merge _ _ _).mp hid with hcol | hcon
  · obtain ⟨c, hcmem, hpid⟩ := List.mem_map.mp hcol
    intro hmem
    exact mem_collaborativeFiltering_not_seen db user_id c hcmem
      ((mem_keysOf_matrixRow db user_id _).mpr (hpid ▸ hmem))
  · obtain ⟨c, hcmem, hpid⟩ := List.mem_map.mp hcon
    intro hmem
    exact mem_contentBasedFiltering_not_seen simf db user_id c hcmem (hpid ▸ hmem)

/-- Claim C10: for a warm user (interaction count at or above the threshold)
no returned item id appears in the user's interaction history — the
collaborative, content and serendipity stages each exclude already-interacted
items, so the whole warm-path output does. -/
theorem c10_warm_excludes_history (s : Settings) (simf : ℕ → ℝ) (db : DB)
    (user_id : ℕ) (n : ℤ) (include_serendipity : Bool) (r : List ℕ)
    (h : s.minInteractionsForCollaborative ≤ (getUserInteractions db user_id).length) :
    ∀ c ∈ getRecommendations s simf db user_id n include_serendipity r,
      c.product_id ∉ userProductIds db user_id := by
  intro c hc
  unfold getRecommendations getRecommendationsT at hc
  rw [if_neg (not_lt.mpr h)] at hc
  have hc2 : c ∈ warmCandidates s simf db user_id include_serendipity r :=
    (mem_sortByKeyDesc _ _ _).mp
      ((pySlice_sublist n _).mem (List.mem_of_mem_filter hc))
  unfold warmCandidates at hc2
  cases include_serendipity with
  | false =>
      rw [if_neg Bool.false_ne_true] at hc2
      exact mem_merge_not_seen simf db user_id c hc2
  | true =>
      rw [if_pos rfl] at hc2
      rcases mem_addSerendipity s db user_id _ r c hc2 with hx | ⟨p, hp, rfl⟩
      · exact mem_merge_not_seen simf db user_id c hx
      · exact (mem_serendipityPool s db user_id _ p hp).2.2.2.1

/-- Concrete warm database for the C10 witness: user 1 has exactly 3
interactions (meeting the default threshold 3). -/
def dbWarm : DB :=
  ⟨[1], [⟨1, "p1", "c", [], 1, 5⟩, ⟨2, "p2", "d", [], 1, 5⟩],
   [⟨1, 1, "view", 1⟩, ⟨1, 1, "cart", 2⟩, ⟨1, 2, "view", 1⟩]⟩

/-- Witness for C10 at the concrete warm database dbWarm. -/
theorem c10_warm_excludes_history_witness :
    defaultSettings.minInteractionsForCollaborative ≤
      (getUserInteractions dbWarm 1).length ∧
    ∀ c ∈ getRecommendations defaultSettings (fun _ => (0 : ℝ)) dbWarm 1 10 true [],
      c.product_id ∉ userProductIds dbWarm 1 :=
  ⟨by decide,
   c10_warm_excludes_history defaultSettings (fun _ => (0 : ℝ)) dbWarm 1 10 true []
     (by decide)⟩

end HeartMind
